import Mathlib

set_option maxRecDepth 10000

/-!
Shallow embedding of `tune2youtube.py`.

Python floats are modelled as exact rationals (`ℚ`); Python ints as `ℤ`.
`int(x)` on a rational is truncation toward zero (`pyTrunc`), and the
`%d` format specifier applies the same truncation before printing.
-/

namespace Tune2Youtube

/-- Python's `int(x)` conversion: truncation toward zero. -/
def pyTrunc (q : ℚ) : ℤ :=
  if q < 0 then ⌈q⌉ else ⌊q⌋

/-- `scaling_round(val, factor=16, max_value=0)` from `tune2youtube.py`:
`vsc = int(val / factor)`, `vmin = vsc * factor`, `vmax = (vsc + 1) * factor`;
returns `vmin` when `(max_value and vmax > max_value) or abs(val - vmin) < abs(val - vmax)`,
else `vmax`.  A `max_value` of `0` is falsy in Python, which the first conjunct mirrors. -/
def scaling_round (val : ℚ) (factor : ℚ) (max_value : ℚ) : ℚ :=
  let vsc : ℤ := pyTrunc (val / factor)
  let vmin : ℚ := (vsc : ℚ) * factor
  let vmax : ℚ := ((vsc : ℚ) + 1) * factor
  if (max_value ≠ 0 ∧ vmax > max_value) ∨ |val - vmin| < |val - vmax| then vmin else vmax

/-- The branch at lines 80-85 of `tune2youtube.py`: the unrounded
`(image_width, image_height)` for a cover of size `cover_width × cover_height`
placed on a `video_width × video_height` canvas. -/
def fitUnrounded (cover_width cover_height : ℚ) (video_width video_height : ℤ) : ℚ × ℚ :=
  let cover_aspect := cover_width / cover_height
  let video_aspect := (video_width : ℚ) / (video_height : ℚ)
  if cover_width ≥ cover_height ∧ cover_aspect > video_aspect then
    ((video_width : ℚ), (video_width : ℚ) / cover_aspect)
  else
    ((video_height : ℚ) * cover_aspect, (video_height : ℚ))

/-- The placement of the cover on the canvas (the spec's `FitResult`). -/
structure FitResult where
  scaled_width : ℤ
  scaled_height : ℤ
  offset_x : ℤ
  offset_y : ℤ
deriving DecidableEq, Repr

/-- Lines 86-95 of `get_cover_filter_string`: assert the unrounded fit is
within the canvas (`none` models the `AssertionError` path), round both
dimensions with `scaling_round` at the default granularity 16 and no max,
and compute the centering offsets `(canvas - scaled) / 2` as printed by `%d`. -/
def fitResult (cover_width cover_height : ℚ) (video_width video_height : ℤ) :
    Option FitResult :=
  let p := fitUnrounded cover_width cover_height video_width video_height
  if p.2 ≤ (video_height : ℚ) ∧ p.1 ≤ (video_width : ℚ) then
    let iw : ℤ := pyTrunc (scaling_round p.1 16 0)
    let ih : ℤ := pyTrunc (scaling_round p.2 16 0)
    some { scaled_width := iw
           scaled_height := ih
           offset_x := pyTrunc (((video_width : ℚ) - (iw : ℚ)) / 2)
           offset_y := pyTrunc (((video_height : ℚ) - (ih : ℚ)) / 2) }
  else none

/-- `get_cover_filter_string` with the probe result passed in as the cover's
dimensions: `"scale=%d:%d" % (iw, ih)` then `"pad=%d:%d:%d:%d"`, joined by a
comma.  `none` models the `AssertionError` path. -/
def get_cover_filter_string (cover_width cover_height : ℚ) (video_width video_height : ℤ) :
    Option String :=
  (fitResult cover_width cover_height video_width video_height).map fun r =>
    "scale=" ++ toString r.scaled_width ++ ":" ++ toString r.scaled_height ++
    ",pad=" ++ toString video_width ++ ":" ++ toString video_height ++ ":" ++
    toString r.offset_x ++ ":" ++ toString r.offset_y

/-- `os.path.basename` (posix): the suffix after the last `/`. -/
def py_basename (p : String) : String :=
  String.mk ((p.toList.reverse.takeWhile fun c => c ≠ '/').reverse)

/-- Index of the last occurrence of `c` in `cs`, or `-1` when absent —
Python's `str.rfind`. -/
def pyRfind (cs : List Char) (c : Char) : ℤ :=
  match cs.reverse.findIdx? fun d => d = c with
  | none => -1
  | some i => (cs.length : ℤ) - 1 - (i : ℤ)

/-- The root part of `os.path.splitext` (posix `genericpath._splitext`):
split at the last dot after the last separator, unless every character
between the separator and that dot is itself a dot (a leading-dot file
such as `.bashrc` has no extension). -/
def py_splitext_root (p : String) : String :=
  let cs := p.toList
  let sepIndex := pyRfind cs '/'
  let dotIndex := pyRfind cs '.'
  if sepIndex < dotIndex then
    if ((cs.drop (sepIndex + 1).toNat).take (dotIndex - sepIndex - 1).toNat).all
        (fun c => c = '.') then
      p
    else
      String.mk (cs.take dotIndex.toNat)
  else p

/-- The fixed video-side arguments of the ffmpeg invocation (lines 117-128),
with `FFMPEG_PATH` unset so the binary is plain `"ffmpeg"`. -/
def ffmpegVideoArgs (cover_path audio_path filter_string : String)
    (width height : ℤ) : List String :=
  ["ffmpeg",
   "-loop", "1",
   "-i", cover_path,
   "-i", audio_path,
   "-r:v", "10",
   "-s:v", toString width ++ "x" ++ toString height,
   "-c:v", "libx264",
   "-crf:v", "22",
   "-filter:v", filter_string,
   "-pix_fmt", "yuv420p"]

/-- Lines 111-113 of `process`: `if not output_path` (absent or empty string,
both falsy in Python) derives `"%s.mp4" % splitext(basename(audio_path))[0]`. -/
def pyOutputPath (audio_path : String) (output_path : Option String) : String :=
  match output_path with
  | none => py_splitext_root (py_basename audio_path) ++ ".mp4"
  | some s => if s = "" then py_splitext_root (py_basename audio_path) ++ ".mp4" else s

/-- `process(cover_path, audio_path, output_path=None, width=1280, height=720)`:
derives the default output path when `output_path` is absent or empty (both
falsy in Python), builds the full ffmpeg argument list — audio stream-copied
for a `.mp3` suffix, transcoded to aac at 320k otherwise — and returns the
argument list together with the output path it returns on success.  The
cover's probed dimensions are passed in; `none` models the `AssertionError`
raised out of `get_cover_filter_string`. -/
def process (cover_width cover_height : ℚ) (cover_path audio_path : String)
    (output_path : Option String) (width height : ℤ) :
    Option (List String × String) :=
  let out : String := pyOutputPath audio_path output_path
  (get_cover_filter_string cover_width cover_height width height).map fun filter_string =>
    let needs_transcode : Bool := !(audio_path.endsWith (".mp3"))
    (ffmpegVideoArgs cover_path audio_path filter_string width height ++
      (if needs_transcode then
        ["-c:a", "aac", "-strict", "experimental", "-b:a", "320k"]
       else
        ["-c:a", "copy"]) ++
      ["-shortest", out],
     out)

/-! ### Helper lemmas -/

lemma pyTrunc_of_nonneg {q : ℚ} (h : 0 ≤ q) : pyTrunc q = ⌊q⌋ := by
  rw [pyTrunc, if_neg (not_lt.mpr h)]

lemma scaling_round_def (val factor max_value : ℚ) :
    scaling_round val factor max_value =
      if (max_value ≠ 0 ∧ ((pyTrunc (val / factor) : ℚ) + 1) * factor > max_value) ∨
          |val - (pyTrunc (val / factor) : ℚ) * factor| <
            |val - ((pyTrunc (val / factor) : ℚ) + 1) * factor| then
        (pyTrunc (val / factor) : ℚ) * factor
      else ((pyTrunc (val / factor) : ℚ) + 1) * factor := rfl

/-- With the falsy `max_value = 0` the cap branch of `scaling_round` never fires
and the result is decided purely by the distance comparison. -/
lemma scaling_round_no_max (v g : ℚ) (hv : 0 ≤ v) (hg : 0 < g) :
    scaling_round v g 0 =
      if |v - (⌊v / g⌋ : ℚ) * g| < |v - ((⌊v / g⌋ : ℚ) + 1) * g| then
        (⌊v / g⌋ : ℚ) * g
      else ((⌊v / g⌋ : ℚ) + 1) * g := by
  rw [scaling_round_def, pyTrunc_of_nonneg (div_nonneg hv hg.le)]
  simp

lemma floor_mul_le (v g : ℚ) (hg : 0 < g) : (⌊v / g⌋ : ℚ) * g ≤ v := by
  rw [← le_div_iff₀ hg]
  exact Int.floor_le _

lemma lt_succ_floor_mul (v g : ℚ) (hg : 0 < g) : v < ((⌊v / g⌋ : ℚ) + 1) * g := by
  rw [← div_lt_iff₀ hg]
  exact Int.lt_floor_add_one (v / g)

lemma scaling_round_nonneg (v g : ℚ) (hv : 0 ≤ v) (hg : 0 < g) :
    0 ≤ scaling_round v g 0 := by
  rw [scaling_round_no_max v g hv hg]
  have hfl : (0 : ℤ) ≤ ⌊v / g⌋ := Int.floor_nonneg.mpr (div_nonneg hv hg.le)
  have h0 : 0 ≤ (⌊v / g⌋ : ℚ) * g := mul_nonneg (by exact_mod_cast hfl) hg.le
  split
  · exact h0
  · nlinarith

/-- When the target bound is a multiple of the granularity 16, rounding a value
below the bound stays below the bound. -/
lemma scaling_round_le_bound (x : ℚ) (k : ℤ) (hx : 0 ≤ x)
    (hle : x ≤ ((16 * k : ℤ) : ℚ)) : scaling_round x 16 0 ≤ ((16 * k : ℤ) : ℚ) := by
  have h16 : (0 : ℚ) < 16 := by norm_num
  rw [scaling_round_no_max x 16 hx h16]
  have hLle : (⌊x / 16⌋ : ℚ) * 16 ≤ x := floor_mul_le x 16 h16
  have hUgt : x < ((⌊x / 16⌋ : ℚ) + 1) * 16 := lt_succ_floor_mul x 16 h16
  by_cases hlt : |x - (⌊x / 16⌋ : ℚ) * 16| < |x - ((⌊x / 16⌋ : ℚ) + 1) * 16|
  · rw [if_pos hlt]
    exact le_trans hLle hle
  · rw [if_neg hlt]
    push_neg at hlt
    rw [abs_of_nonpos (by linarith), abs_of_nonneg (by linarith)] at hlt
    have hmid : (⌊x / 16⌋ : ℚ) * 16 + 8 ≤ x := by linarith
    have hkk : ⌊x / 16⌋ + 1 ≤ k := by
      by_contra hc
      push_neg at hc
      have hk1 : (k : ℚ) ≤ (⌊x / 16⌋ : ℚ) := by exact_mod_cast Int.lt_add_one_iff.mp hc
      have hk2 : ((16 * k : ℤ) : ℚ) ≤ (⌊x / 16⌋ : ℚ) * 16 := by push_cast; linarith
      linarith
    have hq : ((⌊x / 16⌋ : ℚ) + 1) ≤ (k : ℚ) := by exact_mod_cast hkk
    push_cast
    linarith

lemma pyTrunc_le_of_le (q : ℚ) (M : ℤ) (hq : 0 ≤ q) (h : q ≤ (M : ℚ)) :
    pyTrunc q ≤ M := by
  rw [pyTrunc_of_nonneg hq]
  calc ⌊q⌋ ≤ ⌊(M : ℚ)⌋ := Int.floor_mono h
  _ = M := Int.floor_intCast M

lemma fitUnrounded_def (cw ch : ℚ) (vw vh : ℤ) :
    fitUnrounded cw ch vw vh =
      if cw ≥ ch ∧ cw / ch > (vw : ℚ) / (vh : ℚ) then
        ((vw : ℚ), (vw : ℚ) / (cw / ch))
      else ((vh : ℚ) * (cw / ch), (vh : ℚ)) := rfl

lemma fitUnrounded_pos (cw ch : ℚ) (vw vh : ℤ) (hcw : 0 < cw) (hch : 0 < ch)
    (hvw : 0 < vw) (hvh : 0 < vh) :
    0 < (fitUnrounded cw ch vw vh).1 ∧ 0 < (fitUnrounded cw ch vw vh).2 := by
  have hvwq : (0 : ℚ) < (vw : ℚ) := by exact_mod_cast hvw
  have hvhq : (0 : ℚ) < (vh : ℚ) := by exact_mod_cast hvh
  have hasp : 0 < cw / ch := div_pos hcw hch
  by_cases hcond : cw ≥ ch ∧ cw / ch > (vw : ℚ) / (vh : ℚ)
  · rw [fitUnrounded_def, if_pos hcond]
    exact ⟨hvwq, div_pos hvwq hasp⟩
  · rw [fitUnrounded_def, if_neg hcond]
    exact ⟨mul_pos hvhq hasp, hvhq⟩

lemma fitResult_def (cw ch : ℚ) (vw vh : ℤ) :
    fitResult cw ch vw vh =
      if (fitUnrounded cw ch vw vh).2 ≤ (vh : ℚ) ∧
          (fitUnrounded cw ch vw vh).1 ≤ (vw : ℚ) then
        some { scaled_width := pyTrunc (scaling_round (fitUnrounded cw ch vw vh).1 16 0)
               scaled_height := pyTrunc (scaling_round (fitUnrounded cw ch vw vh).2 16 0)
               offset_x := pyTrunc (((vw : ℚ) -
                 ((pyTrunc (scaling_round (fitUnrounded cw ch vw vh).1 16 0) : ℤ) : ℚ)) / 2)
               offset_y := pyTrunc (((vh : ℚ) -
                 ((pyTrunc (scaling_round (fitUnrounded cw ch vw vh).2 16 0) : ℤ) : ℚ)) / 2) }
      else none := rfl

lemma process_def (cw ch : ℚ) (cover_path audio_path : String)
    (output_path : Option String) (w h : ℤ) :
    process cw ch cover_path audio_path output_path w h =
      (get_cover_filter_string cw ch w h).map fun filter_string =>
        (ffmpegVideoArgs cover_path audio_path filter_string w h ++
          (if !(audio_path.endsWith (".mp3")) then
            ["-c:a", "aac", "-strict", "experimental", "-b:a", "320k"]
           else ["-c:a", "copy"]) ++
          ["-shortest", pyOutputPath audio_path output_path],
         pyOutputPath audio_path output_path) := rfl

/-! ### Claim theorems -/

/-- C4: for `v ≥ 0` and granularity `g > 0` with no max bound in effect
(`max_value = 0`, falsy), `scaling_round` returns a non-negative integer
multiple of `g` that is one of the two multiples bracketing `v`
(`⌊v/g⌋*g` or `⌊v/g⌋*g + g`); it returns the strictly nearer bracket, and on
an exact tie it returns the upper bracket. -/
theorem scaling_round_no_max_spec (v g : ℚ) (hv : 0 ≤ v) (hg : 0 < g) :
    0 ≤ scaling_round v g 0 ∧
    (∃ k : ℤ, 0 ≤ k ∧ scaling_round v g 0 = (k : ℚ) * g) ∧
    (scaling_round v g 0 = (⌊v / g⌋ : ℚ) * g ∨
      scaling_round v g 0 = (⌊v / g⌋ : ℚ) * g + g) ∧
    (|v - (⌊v / g⌋ : ℚ) * g| < |v - ((⌊v / g⌋ : ℚ) * g + g)| →
      scaling_round v g 0 = (⌊v / g⌋ : ℚ) * g) ∧
    (|v - ((⌊v / g⌋ : ℚ) * g + g)| < |v - (⌊v / g⌋ : ℚ) * g| →
      scaling_round v g 0 = (⌊v / g⌋ : ℚ) * g + g) ∧
    (|v - (⌊v / g⌋ : ℚ) * g| = |v - ((⌊v / g⌋ : ℚ) * g + g)| →
      scaling_round v g 0 = (⌊v / g⌋ : ℚ) * g + g) := by
  have hU : ((⌊v / g⌋ : ℚ) + 1) * g = (⌊v / g⌋ : ℚ) * g + g := by ring
  have hfl : (0 : ℤ) ≤ ⌊v / g⌋ := Int.floor_nonneg.mpr (div_nonneg hv hg.le)
  have h0 : 0 ≤ (⌊v / g⌋ : ℚ) * g := mul_nonneg (by exact_mod_cast hfl) hg.le
  rw [scaling_round_no_max v g hv hg, hU]
  by_cases hlt : |v - (⌊v / g⌋ : ℚ) * g| < |v - ((⌊v / g⌋ : ℚ) * g + g)|
  · rw [if_pos hlt]
    refine ⟨h0, ⟨⌊v / g⌋, hfl, rfl⟩, Or.inl rfl, fun _ => rfl, ?_, ?_⟩
    · intro h
      exact absurd hlt (not_lt.mpr h.le)
    · intro h
      rw [h] at hlt
      exact absurd hlt (lt_irrefl _)
  · rw [if_neg hlt]
    refine ⟨by linarith, ⟨⌊v / g⌋ + 1, by omega, by push_cast; ring⟩, Or.inr rfl,
      ?_, fun _ => rfl, fun _ => rfl⟩
    intro h
    exact absurd h hlt

/-- Witness for C4 at `v = 24`, `g = 16`: the tie between 16 and 32 resolves
to the upper bracket 32. -/
theorem scaling_round_no_max_spec_witness :
    0 ≤ (24 : ℚ) ∧ (0 : ℚ) < 16 ∧ scaling_round 24 16 0 = 32 := by
  refine ⟨by norm_num, by norm_num, ?_⟩
  have h := (scaling_round_no_max_spec 24 16 (by norm_num) (by norm_num)).2.2.2.2.2 ?_
  · rw [h]
    norm_num
  · norm_num

/-- C5: for `v ≥ 0`, `g > 0` and a supplied positive max bound `m`, if the
upper bracketing multiple `⌊v/g⌋*g + g` exceeds `m` then `scaling_round`
returns the lower bracketing multiple `⌊v/g⌋*g` (even when `v` is strictly
closer to the upper one, as no closeness hypothesis is needed). -/
theorem scaling_round_cap_spec (v g m : ℚ) (hv : 0 ≤ v) (hg : 0 < g)
    (hm : 0 < m) (hcap : m < (⌊v / g⌋ : ℚ) * g + g) :
    scaling_round v g m = (⌊v / g⌋ : ℚ) * g := by
  rw [scaling_round_def, pyTrunc_of_nonneg (div_nonneg hv hg.le), if_pos]
  exact Or.inl ⟨ne_of_gt hm, by rw [add_one_mul]; exact hcap⟩

/-- Witness for C5 at `v = 30`, `g = 16`, `m = 16`: the upper bracket 32
exceeds the bound, so 16 is returned although 30 is strictly closer to 32. -/
theorem scaling_round_cap_spec_witness :
    0 ≤ (30 : ℚ) ∧ (0 : ℚ) < 16 ∧ (0 : ℚ) < 16 ∧
    |(30 : ℚ) - 32| < |(30 : ℚ) - 16| ∧ scaling_round 30 16 16 = 16 := by
  refine ⟨by norm_num, by norm_num, by norm_num, by norm_num, ?_⟩
  have h := scaling_round_cap_spec 30 16 16 (by norm_num) (by norm_num)
    (by norm_num) (by norm_num)
  rw [h]
  norm_num

/-- C10: at `v = 50`, `g = 16`, `max_value = 32` even the lower bracket 48
exceeds the bound, and `scaling_round` returns it anyway (48 > 32); and a
max bound of exactly 0 is falsy, so `scaling_round 12 16 0 = 16 > 0`
rather than being capped at 0. -/
theorem scaling_round_cap_overrun :
    scaling_round 50 16 32 = 48 ∧ ¬((48 : ℚ) ≤ 32) ∧
    scaling_round 12 16 0 = 16 ∧ ¬((16 : ℚ) ≤ 0) := by
  with_unfolding_all decide

/-- C6: a 3000×2000 image on a 1280×720 canvas takes the fit-to-height
branch (unrounded fit 1080×720), rounds to 1088×720 with offsets (96, 0),
and yields the filter string `scale=1088:720,pad=1280:720:96:0`. -/
theorem end_to_end_3000x2000 :
    fitUnrounded 3000 2000 1280 720 = (1080, 720) ∧
    fitResult 3000 2000 1280 720 = some ⟨1088, 720, 96, 0⟩ ∧
    get_cover_filter_string 3000 2000 1280 720 =
      some "scale=1088:720,pad=1280:720:96:0" := by
  with_unfolding_all decide

/-- C9: a 2000×10 image on a 1280×720 canvas fits to width with unrounded
height 32/5 = 6.4, which rounds down to 0, so the filter string contains the
degenerate scale stage `scale=1280:0`. -/
theorem degenerate_zero_scaled_height :
    fitUnrounded 2000 10 1280 720 = (1280, 32 / 5) ∧
    fitResult 2000 10 1280 720 = some ⟨1280, 0, 0, 360⟩ ∧
    get_cover_filter_string 2000 10 1280 720 =
      some "scale=1280:0,pad=1280:720:0:360" := by
  with_unfolding_all decide

/-- C1: the pre-rounding post-condition assertions do NOT hold for every
positive input: a 2×3 image on a 1×2 canvas takes the fit-to-height branch
with unrounded width 4/3 > canvas width 1, so `assert image_width <=
video_width` fails (`none` models the `AssertionError`). -/
theorem assert_fails_on_portrait_canvas :
    fitUnrounded 2 3 1 2 = (4 / 3, 2) ∧ ¬((4 : ℚ) / 3 ≤ 1) ∧
    fitResult 2 3 1 2 = none ∧
    get_cover_filter_string 2 3 1 2 = none := by
  with_unfolding_all decide

/-- C2 counterexample: a 1×2 image on an 8×8 canvas passes the assertions
(unrounded fit 4×8) but the rounded `scaled_height` is 16, which exceeds
`canvas.height = 8`, refuting the claim that the final `FitResult` always
satisfies `scaled_height ≤ canvas.height`. -/
theorem rounded_fit_exceeds_canvas_cex :
    fitResult 1 2 8 8 = some ⟨0, 16, 4, -4⟩ ∧ ¬((16 : ℤ) ≤ 8) := by
  with_unfolding_all decide

/-- C2 (amended): for every image with positive dimensions and every canvas
with positive integer dimensions that are multiples of the rounding
granularity 16, whenever the calculator produces a `FitResult` (the
assertions pass) the rounded `scaled_width ≤ canvas.width` and
`scaled_height ≤ canvas.height`. -/
theorem fitResult_within_canvas_of_multiple16 (cw ch : ℚ) (vw vh : ℤ)
    (r : FitResult) (hcw : 0 < cw) (hch : 0 < ch) (hvw : 0 < vw) (hvh : 0 < vh)
    (hw : 16 ∣ vw) (hh : 16 ∣ vh)
    (hr : fitResult cw ch vw vh = some r) :
    r.scaled_width ≤ vw ∧ r.scaled_height ≤ vh := by
  obtain ⟨hp1, hp2⟩ := fitUnrounded_pos cw ch vw vh hcw hch hvw hvh
  rw [fitResult_def] at hr
  by_cases hcond : (fitUnrounded cw ch vw vh).2 ≤ (vh : ℚ) ∧
      (fitUnrounded cw ch vw vh).1 ≤ (vw : ℚ)
  · rw [if_pos hcond] at hr
    obtain rfl := Option.some.inj hr
    obtain ⟨a, rfl⟩ := hw
    obtain ⟨b, rfl⟩ := hh
    have h16 : (0 : ℚ) < 16 := by norm_num
    have hw1 : scaling_round (fitUnrounded cw ch (16 * a) (16 * b)).1 16 0 ≤
        ((16 * a : ℤ) : ℚ) := scaling_round_le_bound _ a hp1.le hcond.2
    have hh1 : scaling_round (fitUnrounded cw ch (16 * a) (16 * b)).2 16 0 ≤
        ((16 * b : ℤ) : ℚ) := scaling_round_le_bound _ b hp2.le hcond.1
    exact ⟨pyTrunc_le_of_le _ _ (scaling_round_nonneg _ 16 hp1.le h16) hw1,
      pyTrunc_le_of_le _ _ (scaling_round_nonneg _ 16 hp2.le h16) hh1⟩
  · rw [if_neg hcond] at hr
    cases hr

/-- Witness for the amended C2 at a 3000×2000 image on the 1280×720 canvas
(both canvas dimensions are multiples of 16): 1088 ≤ 1280 and 720 ≤ 720. -/
theorem fitResult_within_canvas_of_multiple16_witness :
    (0 : ℚ) < 3000 ∧ (0 : ℚ) < 2000 ∧ (0 : ℤ) < 1280 ∧ (0 : ℤ) < 720 ∧
    (16 : ℤ) ∣ 1280 ∧ (16 : ℤ) ∣ 720 ∧
    fitResult 3000 2000 1280 720 = some ⟨1088, 720, 96, 0⟩ ∧
    ((1088 : ℤ) ≤ 1280 ∧ (720 : ℤ) ≤ 720) :=
  ⟨by norm_num, by norm_num, by norm_num, by norm_num, by norm_num, by norm_num,
   by with_unfolding_all decide,
   fitResult_within_canvas_of_multiple16 3000 2000 1280 720 ⟨1088, 720, 96, 0⟩
     (by norm_num) (by norm_num) (by norm_num) (by norm_num) (by norm_num)
     (by norm_num) (by with_unfolding_all decide)⟩

/-- C3 counterexample: a square 100×100 image on the landscape 1280×720
canvas does NOT fit to width — the unrounded scaled width is 720, the canvas
height, not 1280 (the `>` aspect comparison is strict, so a square image on a
landscape canvas takes the fit-to-height branch). -/
theorem square_image_landscape_canvas_cex :
    fitUnrounded 100 100 1280 720 = (720, 720) ∧
    (fitUnrounded 100 100 1280 720).1 ≠ 1280 := by
  with_unfolding_all decide

/-- C3 (amended): for every square image (`width = height > 0`) and every
landscape canvas (`canvas.width > canvas.height > 0`), the geometry
calculator fits to height: the unrounded result is
`(canvas.height, canvas.height)`, so the unrounded scaled width equals
`canvas.height`, not `canvas.width`. -/
theorem square_image_landscape_canvas_fits_height (c : ℚ) (vw vh : ℤ)
    (hc : 0 < c) (hvh : 0 < vh) (hlt : vh < vw) :
    fitUnrounded c c vw vh = ((vh : ℚ), (vh : ℚ)) ∧
    (fitUnrounded c c vw vh).1 ≠ (vw : ℚ) := by
  have hca : c / c = 1 := div_self (ne_of_gt hc)
  have hvhq : (0 : ℚ) < (vh : ℚ) := by exact_mod_cast hvh
  have hva : (1 : ℚ) < (vw : ℚ) / (vh : ℚ) := by
    rw [lt_div_iff₀ hvhq, one_mul]
    exact_mod_cast hlt
  have hcond : ¬(c ≥ c ∧ c / c > (vw : ℚ) / (vh : ℚ)) := by
    rintro ⟨-, h2⟩
    rw [hca] at h2
    exact absurd hva (not_lt.mpr h2.le)
  have hfit : fitUnrounded c c vw vh = ((vh : ℚ), (vh : ℚ)) := by
    rw [fitUnrounded_def, if_neg hcond, hca, mul_one]
  refine ⟨hfit, ?_⟩
  rw [hfit]
  have : (vh : ℚ) ≠ (vw : ℚ) := by exact_mod_cast ne_of_lt hlt
  exact this

/-- Witness for the amended C3 at a square 100×100 image on the landscape
1280×720 canvas. -/
theorem square_image_landscape_canvas_fits_height_witness :
    (0 : ℚ) < 100 ∧ (0 : ℤ) < 720 ∧ (720 : ℤ) < 1280 ∧
    (fitUnrounded 100 100 1280 720 = ((720 : ℚ), (720 : ℚ)) ∧
      (fitUnrounded 100 100 1280 720).1 ≠ ((1280 : ℤ) : ℚ)) :=
  ⟨by norm_num, by norm_num, by norm_num,
   by
    have h := square_image_landscape_canvas_fits_height 100 1280 720
      (by norm_num) (by norm_num) (by norm_num)
    push_cast at h
    exact h⟩

/-- C7: for every audio path, whenever `process` assembles an invocation the
audio handling is decided solely by the filename suffix: a `.mp3` suffix
yields stream-copy (`-c:a copy`, no transcode arguments), any other suffix
yields a transcode to aac at 320k. -/
theorem process_audio_codec_decision (cw ch : ℚ) (cover_path audio_path : String)
    (output_path : Option String) (w h : ℤ) (args : List String) (outp : String)
    (hp : process cw ch cover_path audio_path output_path w h = some (args, outp)) :
    (audio_path.endsWith (".mp3") = true →
      ∃ fs, args = ffmpegVideoArgs cover_path audio_path fs w h ++
        ["-c:a", "copy", "-shortest", outp]) ∧
    (audio_path.endsWith (".mp3") = false →
      ∃ fs, args = ffmpegVideoArgs cover_path audio_path fs w h ++
        ["-c:a", "aac", "-strict", "experimental", "-b:a", "320k",
         "-shortest", outp]) := by
  rw [process_def] at hp
  cases hg : get_cover_filter_string cw ch w h with
  | none =>
    rw [hg] at hp
    cases hp
  | some fs =>
    rw [hg, Option.map_some'] at hp
    injection Option.some.inj hp with h1 h2
    subst h1
    subst h2
    by_cases hm : audio_path.endsWith (".mp3") = true
    · refine ⟨fun _ => ⟨fs, ?_⟩, fun hcon => absurd hm (by rw [hcon]; simp)⟩
      rw [hm]
      rw [List.append_assoc]
      rfl
    · have hm' : audio_path.endsWith (".mp3") = false := by
        revert hm
        cases audio_path.endsWith (".mp3") <;> simp
      refine ⟨fun hcon => absurd hcon (by rw [hm']; simp), fun _ => ⟨fs, ?_⟩⟩
      rw [hm']
      rw [List.append_assoc]
      rfl

/-- Witness for C7: a `.mp3` audio input on the worked 3000×2000 example
produces the stream-copy argument list. -/
theorem process_audio_codec_decision_witness :
    (("song.mp3").endsWith (".mp3") = true →
      ∃ fs, ["ffmpeg", "-loop", "1", "-i", "cover.png", "-i", "song.mp3",
          "-r:v", "10", "-s:v", "1280x720", "-c:v", "libx264", "-crf:v", "22",
          "-filter:v", "scale=1088:720,pad=1280:720:96:0", "-pix_fmt", "yuv420p",
          "-c:a", "copy", "-shortest", "song.mp4"] =
        ffmpegVideoArgs "cover.png" "song.mp3" fs 1280 720 ++
          ["-c:a", "copy", "-shortest", "song.mp4"]) ∧
    (("song.mp3").endsWith (".mp3") = false →
      ∃ fs, ["ffmpeg", "-loop", "1", "-i", "cover.png", "-i", "song.mp3",
          "-r:v", "10", "-s:v", "1280x720", "-c:v", "libx264", "-crf:v", "22",
          "-filter:v", "scale=1088:720,pad=1280:720:96:0", "-pix_fmt", "yuv420p",
          "-c:a", "copy", "-shortest", "song.mp4"] =
        ffmpegVideoArgs "cover.png" "song.mp3" fs 1280 720 ++
          ["-c:a", "aac", "-strict", "experimental", "-b:a", "320k",
           "-shortest", "song.mp4"]) :=
  process_audio_codec_decision 3000 2000 "cover.png" "song.mp3" none 1280 720
    ["ffmpeg", "-loop", "1", "-i", "cover.png", "-i", "song.mp3",
     "-r:v", "10", "-s:v", "1280x720", "-c:v", "libx264", "-crf:v", "22",
     "-filter:v", "scale=1088:720,pad=1280:720:96:0", "-pix_fmt", "yuv420p",
     "-c:a", "copy", "-shortest", "song.mp4"] "song.mp4"
    (by with_unfolding_all decide)

/-- C8: for every audio path, when no output path is supplied `process`
derives the output as the audio file's base name with directory and
extension stripped plus the fixed `.mp4` extension, and returns that path. -/
theorem process_default_output (cw ch : ℚ) (cover_path audio_path : String)
    (w h : ℤ) (args : List String) (outp : String)
    (hp : process cw ch cover_path audio_path none w h = some (args, outp)) :
    outp = py_splitext_root (py_basename audio_path) ++ ".mp4" := by
  rw [process_def] at hp
  cases hg : get_cover_filter_string cw ch w h with
  | none =>
    rw [hg] at hp
    cases hp
  | some fs =>
    rw [hg, Option.map_some'] at hp
    injection Option.some.inj hp with h1 h2
    rw [← h2]
    rfl

/-- Witness for C8: audio path `song.wav` with no explicit output yields
`song.mp4`, the name `process` returns. -/
theorem process_default_output_witness :
    ("song.mp4" : String) = py_splitext_root (py_basename "song.wav") ++ ".mp4" :=
  process_default_output 3000 2000 "cover.png" "song.wav" 1280 720
    ["ffmpeg", "-loop", "1", "-i", "cover.png", "-i", "song.wav",
     "-r:v", "10", "-s:v", "1280x720", "-c:v", "libx264", "-crf:v", "22",
     "-filter:v", "scale=1088:720,pad=1280:720:96:0", "-pix_fmt", "yuv420p",
     "-c:a", "aac", "-strict", "experimental", "-b:a", "320k",
     "-shortest", "song.mp4"] "song.mp4"
    (by with_unfolding_all decide)

end Tune2Youtube
